import Mathlib

/-!
Verification of the Freelance-pattern client agent (`examples/C/flcliapi.c`).

The agent is embedded shallowly:

* `server_t` becomes `Server`; the C heap objects are modelled by the list
  `Agent.records`, where a record's index plays the role of its pointer, so
  that the `actives` list (a `zlist_t` of pointers) and the `servers` hash
  (a `zhash_t` from endpoint to pointer) can share records exactly as the C
  code does.
* `zhash_insert` keeps the first binding for a key (CZMQ's `zhash_insert`
  refuses duplicate keys); `zhash_foreach` is a fold over the binding list.
* Times (`zclock_time`) are natural-number milliseconds; each handler takes
  the current time `now` as an argument.  Within one C handler the code may
  call `zclock_time` several times; those calls are all modelled by the same
  `now`, which is faithful up to sub-millisecond drift.
* Messages are lists of string frames.  A reply from the router socket is
  modelled as its identity frame, its echoed sequence number (the C code
  applies `atoi` to the frame; requests carry `sprintf "%u"` of the counter,
  so the round trip is the identity) and its remaining frames.
* A failed `assert` aborts the process; handlers therefore return
  `Option Agent`, with `none` for an assertion failure.
* Frames written to the inproc pipe and to the router socket are collected
  in the grow-only logs `pipeOut` and `routerOut`.
-/

/-- GLOBAL_TIMEOUT from flcliapi.c: abandon a request after this time (msec). -/
def GLOBAL_TIMEOUT : Nat := 3000

/-- PING_INTERVAL from flcliapi.c (msec). -/
def PING_INTERVAL : Nat := 2000

/-- SERVER_TTL from flcliapi.c: a silent server is dead after this long (msec). -/
def SERVER_TTL : Nat := 6000

/-- One `server_t`: endpoint string, alive flag, next-ping time, expiry time. -/
structure Server where
  endpoint : String
  alive : Bool
  ping_at : Nat
  expires : Nat
deriving Repr, DecidableEq

instance : Inhabited Server := ⟨⟨"", false, 0, 0⟩⟩

/-- `server_new`: fresh record, not alive, timers started from `now`. -/
def server_new (now : Nat) (endpoint : String) : Server :=
  { endpoint := endpoint
    alive := false
    ping_at := now + PING_INTERVAL
    expires := now + SERVER_TTL }

/-- The `agent_t` state.  `records` holds every `server_t` ever allocated
(index = pointer); `servers` is the endpoint-to-record `zhash_t`; `actives`
is the `zlist_t` of record pointers; `request` is the current request
frames if any; `expires` its deadline; `pipeOut`/`routerOut` log every
message sent on the pipe and on the router socket. -/
structure Agent where
  records : List Server
  servers : List (String × Nat)
  actives : List Nat
  sequence : Nat
  request : Option (List String)
  expires : Nat
  pipeOut : List (List String)
  routerOut : List (List String)
deriving Repr, DecidableEq

/-- `agent_new`: empty hash, empty actives list, zeroed scalars. -/
def agent_new : Agent :=
  { records := []
    servers := []
    actives := []
    sequence := 0
    request := none
    expires := 0
    pipeOut := []
    routerOut := [] }

/-- `zhash_lookup`: first binding for the key, if any. -/
def hashLookup (h : List (String × Nat)) (k : String) : Option Nat :=
  (h.find? (fun p => p.1 == k)).map Prod.snd

/-- `zhash_insert`: refuses a duplicate key (CZMQ returns -1 and leaves the
table unchanged; flcliapi.c ignores the return value). -/
def hashInsert (h : List (String × Nat)) (k : String) (v : Nat) : List (String × Nat) :=
  match hashLookup h k with
  | some _ => h
  | none => h ++ [(k, v)]

/-- The record a pointer refers to (`default` is never reached from states
the agent can build, see `execTrace_inv`). -/
def recOf (records : List Server) (id : Nat) : Server :=
  records.getD id default

/-- The alive flag of the record a pointer refers to. -/
def aliveOf (s : Agent) (id : Nat) : Bool :=
  (recOf s.records id).alive

/-- The CONNECT branch of `agent_control_message`: allocate a record with
`server_new`, insert it into the hash, append it to `actives`, restart its
timers from `now` (the restart repeats the values `server_new` just wrote,
since both read the same clock). -/
def agent_connect (now : Nat) (endpoint : String) (s : Agent) : Agent :=
  let id := s.records.length
  { s with
    records := s.records ++ [server_new now endpoint]
    servers := hashInsert s.servers endpoint id
    actives := s.actives ++ [id] }

/-- The REQUEST branch of `agent_control_message`: `assert (!self->request)`
(modelled by `none`), then increment the `uint` counter, push its decimal
text onto the payload, store the frames as the pending request and arm the
deadline. -/
def agent_request (now : Nat) (payload : List String) (s : Agent) : Option Agent :=
  match s.request with
  | some _ => none
  | none =>
    let seq := (s.sequence + 1) % 4294967296
    some { s with
           sequence := seq
           request := some (toString seq :: payload)
           expires := now + GLOBAL_TIMEOUT }

/-- A command arriving on the pipe: CONNECT with an endpoint, or REQUEST
with payload frames. -/
inductive Command where
  | connect (endpoint : String)
  | request (payload : List String)
deriving Repr, DecidableEq

/-- `agent_control_message`: process one command from the frontend. -/
def agent_control_message (now : Nat) (cmd : Command) (s : Agent) : Option Agent :=
  match cmd with
  | .connect endpoint => some (agent_connect now endpoint s)
  | .request payload => agent_request now payload s

/-- `agent_router_message`: one reply from a server.  Frame 0 is the sender
identity, looked up in the hash — `assert (server)` aborts on a miss.  The
record's timers restart; if it was not alive it is appended to `actives`
and marked alive.  If the echoed sequence equals the counter, the remaining
frames prefixed with "OK" go to the pipe and the pending request is
destroyed; otherwise the reply is dropped. -/
def agent_router_message (now : Nat) (endpoint : String) (seq : Nat)
    (frames : List String) (s : Agent) : Option Agent :=
  match hashLookup s.servers endpoint with
  | none => none
  | some id =>
    let r := recOf s.records id
    let acts := if r.alive then s.actives else s.actives ++ [id]
    let recs := s.records.set id
      { r with alive := true, ping_at := now + PING_INTERVAL, expires := now + SERVER_TTL }
    if seq = s.sequence then
      some { s with records := recs, actives := acts,
                    pipeOut := s.pipeOut ++ [("OK" :: frames)], request := none }
    else
      some { s with records := recs, actives := acts }

/-- The dispatch `while (zlist_size (self->actives))` loop: pop expired
records off the front (marking them not alive) until the front is current,
then send the duplicated request prefixed with that record's identity and
stop.  Returns the updated records, the remaining actives list and the
messages sent on the router socket. -/
def dispatch_loop (now : Nat) (req : List String) (records : List Server) :
    List Nat → List Server × List Nat × List (List String)
  | [] => (records, [], [])
  | id :: rest =>
    let r := recOf records id
    if now ≥ r.expires then
      dispatch_loop now req (records.set id { r with alive := false }) rest
    else
      (records, id :: rest, [r.endpoint :: req])

/-- The `if (self->request)` block at the bottom of the agent loop: on a
passed deadline send FAILED to the pipe and drop the request, otherwise run
the dispatch loop. -/
def agent_dispatch (now : Nat) (s : Agent) : Agent :=
  match s.request with
  | none => s
  | some req =>
    if now ≥ s.expires then
      { s with pipeOut := s.pipeOut ++ [["FAILED"]], request := none }
    else
      { s with records := (dispatch_loop now req s.records s.actives).1,
               actives := (dispatch_loop now req s.records s.actives).2.1,
               routerOut := s.routerOut ++ (dispatch_loop now req s.records s.actives).2.2 }

/-- `server_ping` for one record: if its ping time has come, send
[endpoint, "PING"] on the router socket and re-arm the ping timer. -/
def server_ping (now : Nat) (acc : List Server × List (List String)) (id : Nat) :
    List Server × List (List String) :=
  let r := recOf acc.1 id
  if now ≥ r.ping_at then
    (acc.1.set id { r with ping_at := now + PING_INTERVAL },
     acc.2 ++ [[r.endpoint, "PING"]])
  else
    acc

/-- `zhash_foreach (self->servers, server_ping, self->router)`. -/
def agent_ping (now : Nat) (s : Agent) : Agent :=
  { s with
    records := (s.servers.foldl (fun acc p => server_ping now acc p.2) (s.records, [])).1,
    routerOut := s.routerOut ++
      (s.servers.foldl (fun acc p => server_ping now acc p.2) (s.records, [])).2 }

/-- `server_tickless` for one record: lower the wake-up time to its ping
time when that is earlier. -/
def server_tickless (ping_at tickless : Nat) : Nat :=
  if tickless > ping_at then ping_at else tickless

/-- The tickless computation at the top of the agent loop: one hour from
now, lowered to the request deadline when a request is pending, then
lowered to every registered server's ping time by `zhash_foreach`. -/
def agent_tickless (now : Nat) (s : Agent) : Nat :=
  let t0 := now + 1000 * 3600
  let t1 :=
    match s.request with
    | some _ => if t0 > s.expires then s.expires else t0
    | none => t0
  s.servers.foldl (fun t p => server_tickless (recOf s.records p.2).ping_at t) t1

/-- The timeout handed to `zmq_poll`: wake-up time minus the current time. -/
def agent_wait_timeout (now : Nat) (s : Agent) : Nat :=
  agent_tickless now s - now

/-- One step of the agent loop body, as an event: a pipe command, a router
reply, the dispatch block, or the heartbeat sweep. -/
inductive Event where
  | control (now : Nat) (cmd : Command)
  | router (now : Nat) (endpoint : String) (seq : Nat) (frames : List String)
  | dispatch (now : Nat)
  | ping (now : Nat)
deriving Repr, DecidableEq

/-- Execute one event (`none` = a C assert fired). -/
def execEvent (e : Event) (s : Agent) : Option Agent :=
  match e with
  | .control now cmd => agent_control_message now cmd s
  | .router now endpoint seq frames => agent_router_message now endpoint seq frames s
  | .dispatch now => some (agent_dispatch now s)
  | .ping now => some (agent_ping now s)

/-- Execute a sequence of events from a state. -/
def execTrace : List Event → Agent → Option Agent
  | [], s => some s
  | e :: tr, s => (execEvent e s).bind (execTrace tr)

/-- Length of the prefix of the actives list the dispatch loop pops: the
maximal run of front records whose expiry has passed (`alive := false`
never changes an expiry, so the original records decide it). -/
def expiredLen (now : Nat) (records : List Server) : List Nat → Nat
  | [] => 0
  | id :: rest =>
    if now ≥ (recOf records id).expires then expiredLen now records rest + 1 else 0

/-- The inductive invariant of the agent: every pointer in `actives` and in
the hash is a valid index into `records`; a record occurs in `actives` at
most twice, and at most once while its alive flag is off; the pending
request's first frame is the decimal text of the sequence counter. -/
def AgentInv (s : Agent) : Prop :=
  (∀ id ∈ s.actives, id < s.records.length) ∧
  (∀ p ∈ s.servers, p.2 < s.records.length) ∧
  (∀ id : Nat, s.actives.count id ≤ (if aliveOf s id then 2 else 1)) ∧
  (∀ l, s.request = some l → ∃ tl, l = toString s.sequence :: tl)

/-- CONNECT to tcp://A at time 0. -/
def evConnectA : Event := Event.control 0 (Command.connect "tcp://A")

/-- CONNECT to tcp://B at time 7000 (tcp://A is silent-dead by then). -/
def evConnectB : Event := Event.control 7000 (Command.connect "tcp://B")

/-- REQUEST ["hello"] at time 10. -/
def evRequestHello : Event := Event.control 10 (Command.request ["hello"])

/-- REQUEST ["job"] at time 7000. -/
def evRequestJob : Event := Event.control 7000 (Command.request ["job"])

/-- A reply from tcp://A echoing sequence 1 (the fresh one). -/
def evReplyFresh : Event := Event.router 20 "tcp://A" 1 ["world"]

/-- A second reply from tcp://A still echoing sequence 1. -/
def evReplyDup : Event := Event.router 30 "tcp://A" 1 ["again"]

/-- A reply from tcp://A echoing sequence 7 while the counter is 0. -/
def evReplyStale : Event := Event.router 5 "tcp://A" 7 ["x"]

/-- The agent just after connecting tcp://A. -/
def sConnA : Agent := (execTrace [evConnectA] agent_new).getD agent_new

/-- The agent after connecting tcp://A and storing request ["hello"]. -/
def sPending : Agent := (execTrace [evConnectA, evRequestHello] agent_new).getD agent_new

/-- The state `sPending` after a reply from tcp://A echoing sequence 7. -/
def sPendingStale : Agent := (agent_router_message 25 "tcp://A" 7 [] sPending).getD agent_new

/-- The agent after connecting tcp://A and then handling a reply from it. -/
def sDup : Agent := (execTrace [evConnectA, evReplyStale] agent_new).getD agent_new

/-- Two servers (tcp://A long silent, tcp://B fresh) and a pending request. -/
def sTwoServers : Agent :=
  (execTrace [evConnectA, evConnectB, evRequestJob] agent_new).getD agent_new

/-! Pointer-access lemmas for `recOf` over `List.set` and append. -/

theorem recOf_ge (recs : List Server) (j : Nat) (h : recs.length ≤ j) :
    recOf recs j = default := by
  simp [recOf, List.getD_eq_getElem?_getD, List.getElem?_eq_none h]

theorem recOf_set (recs : List Server) (id j : Nat) (r : Server) :
    recOf (recs.set id r) j =
      if id = j ∧ id < recs.length then r else recOf recs j := by
  by_cases h1 : id = j
  · subst h1
    by_cases h2 : id < recs.length
    · simp [recOf, List.getD_eq_getElem?_getD, List.getElem?_set_self h2, h2]
    · rw [if_neg (by tauto), List.set_eq_of_length_le (by omega)]
  · simp [recOf, List.getD_eq_getElem?_getD, List.getElem?_set_ne h1, h1]

theorem recOf_append (recs : List Server) (r : Server) (j : Nat) :
    recOf (recs ++ [r]) j = if j = recs.length then r else recOf recs j := by
  rcases lt_trichotomy j recs.length with h | h | h
  · rw [if_neg (by omega)]
    simp [recOf, List.getD_eq_getElem?_getD, List.getElem?_append_left h]
  · subst h
    simp [recOf, List.getD_eq_getElem?_getD, List.getElem?_concat_length]
  · rw [if_neg (by omega)]
    have h1 : (recs ++ [r]).length ≤ j := by simp; omega
    rw [recOf_ge _ _ h1, recOf_ge _ _ (by omega)]

theorem hashLookup_mem {h : List (String × Nat)} {k : String} {id : Nat}
    (hl : hashLookup h k = some id) : ∃ p ∈ h, p.2 = id := by
  unfold hashLookup at hl
  cases hfind : h.find? (fun p => p.1 == k) with
  | none => rw [hfind] at hl; simp at hl
  | some p =>
    rw [hfind] at hl
    exact ⟨p, List.mem_of_find?_eq_some hfind, by simpa using hl⟩

theorem expiredLen_congr {recs recs' : List Server}
    (h : ∀ j, (recOf recs' j).expires = (recOf recs j).expires) (now : Nat) :
    ∀ acts, expiredLen now recs' acts = expiredLen now recs acts := by
  intro acts
  induction acts with
  | nil => rfl
  | cons id rest ih => simp [expiredLen, h id, ih]

/-! Preservation of `AgentInv` by each handler. -/

theorem inv_connect (now : Nat) (ep : String) (s : Agent) (h : AgentInv s) :
    AgentInv (agent_connect now ep s) := by
  obtain ⟨hwf, hsv, hcnt, hrq⟩ := h
  refine ⟨?_, ?_, ?_, ?_⟩
  · intro id hid
    simp only [agent_connect, List.mem_append, List.mem_singleton] at hid
    simp only [agent_connect, List.length_append, List.length_singleton]
    rcases hid with hid | hid
    · exact Nat.lt_succ_of_lt (hwf id hid)
    · omega
  · intro p hp
    simp only [agent_connect, List.length_append, List.length_singleton]
    simp only [agent_connect, hashInsert] at hp
    cases hlk : hashLookup s.servers ep with
    | some j => rw [hlk] at hp; exact Nat.lt_succ_of_lt (hsv p hp)
    | none =>
      rw [hlk] at hp
      rcases List.mem_append.mp hp with hp | hp
      · exact Nat.lt_succ_of_lt (hsv p hp)
      · rcases List.mem_singleton.mp hp with rfl; omega
  · intro id
    simp only [agent_connect, aliveOf, List.count_append, recOf_append]
    by_cases hid : id = s.records.length
    · subst hid
      have h0 : s.actives.count s.records.length = 0 :=
        List.count_eq_zero_of_not_mem (fun hmem => absurd (hwf _ hmem) (lt_irrefl _))
      rw [h0, if_pos rfl]
      simp [server_new, List.count_singleton']
    · rw [if_neg hid]
      have h1 : List.count id [s.records.length] = 0 := by
        simp [List.count_singleton']; omega
      rw [h1]
      simpa [aliveOf] using hcnt id
  · intro l hl
    exact hrq l hl

theorem server_ping_length (now : Nat) (acc : List Server × List (List String)) (id : Nat) :
    (server_ping now acc id).1.length = acc.1.length := by
  unfold server_ping
  by_cases hp : now ≥ (recOf acc.1 id).ping_at
  · simp [hp]
  · simp [hp]

theorem server_ping_alive (now : Nat) (acc : List Server × List (List String)) (id j : Nat) :
    (recOf (server_ping now acc id).1 j).alive = (recOf acc.1 j).alive := by
  unfold server_ping
  by_cases hp : now ≥ (recOf acc.1 id).ping_at
  · simp only [hp, if_pos, ge_iff_le]
    rw [recOf_set]
    by_cases hc : id = j ∧ id < acc.1.length
    · rw [if_pos hc]; rw [hc.1]
    · rw [if_neg hc]
  · simp [hp]

theorem ping_fold (now : Nat) :
    ∀ (ps : List (String × Nat)) (acc : List Server × List (List String)),
      ((ps.foldl (fun a p => server_ping now a p.2) acc).1.length = acc.1.length) ∧
      (∀ j, (recOf (ps.foldl (fun a p => server_ping now a p.2) acc).1 j).alive =
        (recOf acc.1 j).alive) := by
  intro ps
  induction ps with
  | nil => intro acc; exact ⟨rfl, fun _ => rfl⟩
  | cons p ps ih =>
    intro acc
    simp only [List.foldl_cons]
    obtain ⟨ih1, ih2⟩ := ih (server_ping now acc p.2)
    exact ⟨ih1.trans (server_ping_length now acc p.2),
           fun j => (ih2 j).trans (server_ping_alive now acc p.2 j)⟩

theorem router_eq_fresh {s : Agent} {ep : String} {id : Nat} {now seq : Nat}
    {frames : List String} (hlk : hashLookup s.servers ep = some id)
    (hseq : seq = s.sequence) :
    agent_router_message now ep seq frames s = some { s with
      records := s.records.set id { recOf s.records id with
        alive := true, ping_at := now + PING_INTERVAL, expires := now + SERVER_TTL },
      actives := if (recOf s.records id).alive then s.actives else s.actives ++ [id],
      pipeOut := s.pipeOut ++ [("OK" :: frames)], request := none } := by
  simp [agent_router_message, hlk, hseq]

theorem router_eq_stale {s : Agent} {ep : String} {id : Nat} {now seq : Nat}
    {frames : List String} (hlk : hashLookup s.servers ep = some id)
    (hseq : ¬ seq = s.sequence) :
    agent_router_message now ep seq frames s = some { s with
      records := s.records.set id { recOf s.records id with
        alive := true, ping_at := now + PING_INTERVAL, expires := now + SERVER_TTL },
      actives := if (recOf s.records id).alive then s.actives else s.actives ++ [id] } := by
  simp [agent_router_message, hlk, hseq]

theorem router_update_wf (s : Agent) (id now : Nat) (hidlt : id < s.records.length)
    (hwf : ∀ j ∈ s.actives, j < s.records.length)
    (hcnt : ∀ j : Nat, s.actives.count j ≤ (if aliveOf s j then 2 else 1)) :
    (∀ j ∈ (if (recOf s.records id).alive then s.actives else s.actives ++ [id]),
       j < (s.records.set id { recOf s.records id with
             alive := true, ping_at := now + PING_INTERVAL, expires := now + SERVER_TTL }).length) ∧
    (∀ j : Nat,
       (if (recOf s.records id).alive then s.actives else s.actives ++ [id]).count j ≤
         (if (recOf (s.records.set id { recOf s.records id with
             alive := true, ping_at := now + PING_INTERVAL, expires := now + SERVER_TTL }) j).alive
          then 2 else 1)) := by
  constructor
  · intro j hj
    rw [List.length_set]
    by_cases hal : (recOf s.records id).alive
    · rw [if_pos hal] at hj; exact hwf j hj
    · rw [if_neg hal] at hj
      rcases List.mem_append.mp hj with hj | hj
      · exact hwf j hj
      · rcases List.mem_singleton.mp hj with rfl; exact hidlt
  · intro j
    by_cases hj : id = j
    · subst hj
      rw [recOf_set, if_pos (show id = id ∧ id < s.records.length from ⟨rfl, hidlt⟩)]
      have hb : (if ({ recOf s.records id with
          alive := true, ping_at := now + PING_INTERVAL,
          expires := now + SERVER_TTL } : Server).alive then 2 else 1) = 2 := rfl
      rw [hb]
      by_cases hal : (recOf s.records id).alive
      · rw [if_pos hal]
        simpa [aliveOf, hal] using hcnt id
      · rw [if_neg hal, List.count_append]
        have h1 : List.count id s.actives ≤ 1 := by simpa [aliveOf, hal] using hcnt id
        have h2 : List.count id [id] = 1 := by simp
        rw [h2]
        omega
    · have hnc : ¬ (id = j ∧ id < s.records.length) := fun hc => hj hc.1
      by_cases hal : (recOf s.records id).alive
      · rw [if_pos hal, recOf_set, if_neg hnc]
        simpa [aliveOf] using hcnt j
      · rw [if_neg hal, recOf_set, if_neg hnc, List.count_append]
        have h1 : List.count j [id] = 0 := by
          simp [List.count_singleton', hj]
        rw [h1]
        simpa [aliveOf] using hcnt j

theorem inv_router (now : Nat) (ep : String) (seq : Nat) (frames : List String)
    (s s' : Agent) (hstep : agent_router_message now ep seq frames s = some s')
    (h : AgentInv s) : AgentInv s' := by
  obtain ⟨hwf, hsv, hcnt, hrq⟩ := h
  cases hlk : hashLookup s.servers ep with
  | none =>
    unfold agent_router_message at hstep
    rw [hlk] at hstep
    simp at hstep
  | some id =>
    obtain ⟨p, hp, hpid⟩ := hashLookup_mem hlk
    have hidlt : id < s.records.length := hpid ▸ hsv p hp
    obtain ⟨nwf, ncnt⟩ := router_update_wf s id now hidlt hwf hcnt
    by_cases hseq : seq = s.sequence
    · rw [router_eq_fresh hlk hseq] at hstep
      injection hstep with h2
      subst h2
      refine ⟨nwf, ?_, ncnt, ?_⟩
      · intro q hq
        rw [List.length_set]
        exact hsv q hq
      · intro l hl
        simp at hl
    · rw [router_eq_stale hlk hseq] at hstep
      injection hstep with h2
      subst h2
      refine ⟨nwf, ?_, ncnt, ?_⟩
      · intro q hq
        rw [List.length_set]
        exact hsv q hq
      · intro l hl
        exact hrq l hl

theorem inv_control (now : Nat) (cmd : Command) (s s' : Agent)
    (hstep : agent_control_message now cmd s = some s') (h : AgentInv s) : AgentInv s' := by
  cases cmd with
  | connect ep =>
    simp only [agent_control_message] at hstep
    injection hstep with h2
    exact h2 ▸ inv_connect now ep s h
  | request payload =>
    obtain ⟨hwf, hsv, hcnt, hrq⟩ := h
    simp only [agent_control_message] at hstep
    unfold agent_request at hstep
    cases hr : s.request with
    | some l => rw [hr] at hstep; simp at hstep
    | none =>
      rw [hr] at hstep
      simp only [Option.some.injEq] at hstep
      subst hstep
      refine ⟨hwf, hsv, hcnt, ?_⟩
      intro l hl
      simp only [Option.some.injEq] at hl
      exact ⟨payload, hl.symm⟩

theorem dispatch_loop_spec (now : Nat) (req : List String) :
    ∀ (acts : List Nat) (recs : List Server),
      (dispatch_loop now req recs acts).2.1 = acts.drop (expiredLen now recs acts) ∧
      (dispatch_loop now req recs acts).1.length = recs.length ∧
      (∀ j, (recOf (dispatch_loop now req recs acts).1 j).alive =
         (if j ∈ acts.take (expiredLen now recs acts) then false
          else (recOf recs j).alive)) ∧
      (∀ j, (recOf (dispatch_loop now req recs acts).1 j).expires =
         (recOf recs j).expires) ∧
      (∀ j, (recOf (dispatch_loop now req recs acts).1 j).endpoint =
         (recOf recs j).endpoint) ∧
      (∀ j ∈ acts.take (expiredLen now recs acts), now ≥ (recOf recs j).expires) ∧
      (∀ j, (acts.drop (expiredLen now recs acts)).head? = some j →
         now < (recOf recs j).expires) ∧
      (dispatch_loop now req recs acts).2.2 =
        ((acts.drop (expiredLen now recs acts)).head?.map
          (fun j => (recOf recs j).endpoint :: req)).toList := by
  intro acts
  induction acts with
  | nil =>
    intro recs
    refine ⟨rfl, rfl, ?_, fun _ => rfl, fun _ => rfl, ?_, ?_, rfl⟩
    · intro j
      simp [expiredLen, dispatch_loop]
    · intro j hj
      simp [expiredLen] at hj
    · intro j hj
      simp [expiredLen] at hj
  | cons id rest ih =>
    intro recs
    by_cases hexp : now ≥ (recOf recs id).expires
    · have hstep : dispatch_loop now req recs (id :: rest) =
          dispatch_loop now req (recs.set id { recOf recs id with alive := false }) rest := by
        simp [dispatch_loop, hexp]
      have hk : expiredLen now recs (id :: rest) = expiredLen now recs rest + 1 := by
        simp [expiredLen, hexp]
      set recs2 := recs.set id { recOf recs id with alive := false } with hrecs2
      have hexpires : ∀ j, (recOf recs2 j).expires = (recOf recs j).expires := by
        intro j
        rw [hrecs2, recOf_set]
        by_cases hc : id = j ∧ id < recs.length
        · rw [if_pos hc, hc.1]
        · rw [if_neg hc]
      have hendp : ∀ j, (recOf recs2 j).endpoint = (recOf recs j).endpoint := by
        intro j
        rw [hrecs2, recOf_set]
        by_cases hc : id = j ∧ id < recs.length
        · rw [if_pos hc, hc.1]
        · rw [if_neg hc]
      have halive : ∀ j, (recOf recs2 j).alive =
          (if j = id then false else (recOf recs j).alive) := by
        intro j
        rw [hrecs2, recOf_set]
        by_cases hj : j = id
        · subst hj
          rw [if_pos rfl]
          by_cases hlen : j < recs.length
          · rw [if_pos ⟨rfl, hlen⟩]
          · rw [if_neg (fun hc => hlen hc.2), recOf_ge recs j (by omega)]
            rfl
        · rw [if_neg (fun hc => hj hc.1.symm), if_neg hj]
      have hkc : expiredLen now recs2 rest = expiredLen now recs rest :=
        expiredLen_congr hexpires now rest
      obtain ⟨ih1, ih2, ih3, ih4, ih5, ih6, ih7, ih8⟩ := ih recs2
      rw [hstep, hk]
      refine ⟨?_, ?_, ?_, ?_, ?_, ?_, ?_, ?_⟩
      · rw [ih1, hkc, List.drop_succ_cons]
      · rw [ih2, hrecs2, List.length_set]
      · intro j
        rw [ih3 j, hkc, List.take_succ_cons]
        by_cases hmem : j ∈ rest.take (expiredLen now recs rest)
        · rw [if_pos hmem, if_pos (List.mem_cons_of_mem id hmem)]
        · rw [if_neg hmem, halive j]
          by_cases hj : j = id
          · subst hj
            rw [if_pos rfl, if_pos (List.mem_cons_self _ _)]
          · rw [if_neg hj, if_neg (by simp [List.mem_cons, hj, hmem])]
      · intro j
        rw [ih4 j, hexpires j]
      · intro j
        rw [ih5 j, hendp j]
      · intro j hj
        rw [List.take_succ_cons] at hj
        rcases List.mem_cons.mp hj with rfl | hj2
        · exact hexp
        · have h6 := ih6 j (hkc ▸ hj2)
          rwa [hexpires j] at h6
      · intro j hj
        rw [List.drop_succ_cons] at hj
        have h7 := ih7 j (by rw [hkc]; exact hj)
        rwa [hexpires j] at h7
      · rw [ih8, hkc, List.drop_succ_cons]
        cases hh : (rest.drop (expiredLen now recs rest)).head? with
        | none => simp [hh]
        | some j => simp [hh, hendp j]
    · have hstep : dispatch_loop now req recs (id :: rest) =
          (recs, id :: rest, [(recOf recs id).endpoint :: req]) := by
        simp [dispatch_loop, hexp]
      have hk : expiredLen now recs (id :: rest) = 0 := by
        simp [expiredLen, hexp]
      rw [hstep, hk]
      refine ⟨rfl, rfl, ?_, fun _ => rfl, fun _ => rfl, ?_, ?_, rfl⟩
      · intro j
        simp
      · intro j hj
        simp at hj
      · intro j hj
        simp only [List.drop_zero, List.head?_cons, Option.some.injEq] at hj
        subst hj
        exact Nat.lt_of_not_le hexp

theorem dispatch_eq_idle {s : Agent} {now : Nat} (hr : s.request = none) :
    agent_dispatch now s = s := by
  simp [agent_dispatch, hr]

theorem dispatch_eq_failed {s : Agent} {now : Nat} {req : List String}
    (hr : s.request = some req) (hexp : now ≥ s.expires) :
    agent_dispatch now s =
      { s with pipeOut := s.pipeOut ++ [["FAILED"]], request := none } := by
  simp [agent_dispatch, hr, hexp]

theorem dispatch_eq_run {s : Agent} {now : Nat} {req : List String}
    (hr : s.request = some req) (hexp : ¬ now ≥ s.expires) :
    agent_dispatch now s = { s with
      records := (dispatch_loop now req s.records s.actives).1,
      actives := (dispatch_loop now req s.records s.actives).2.1,
      routerOut := s.routerOut ++ (dispatch_loop now req s.records s.actives).2.2 } := by
  simp [agent_dispatch, hr, hexp]

theorem inv_dispatch (now : Nat) (s : Agent) (h : AgentInv s) :
    AgentInv (agent_dispatch now s) := by
  obtain ⟨hwf, hsv, hcnt, hrq⟩ := h
  cases hr : s.request with
  | none =>
    rw [dispatch_eq_idle hr]
    exact ⟨hwf, hsv, hcnt, hrq⟩
  | some req =>
    by_cases hexp : now ≥ s.expires
    · rw [dispatch_eq_failed hr hexp]
      exact ⟨hwf, hsv, hcnt, fun l hl => by simp at hl⟩
    · rw [dispatch_eq_run hr hexp]
      obtain ⟨l1, l2, l3, l4, l5, l6, l7, l8⟩ := dispatch_loop_spec now req s.actives s.records
      refine ⟨?_, ?_, ?_, ?_⟩
      · intro j hj
        rw [l2]
        rw [l1] at hj
        exact hwf j (List.drop_subset _ _ hj)
      · intro p hp
        rw [l2]
        exact hsv p hp
      · intro j
        have hs : List.count j s.actives =
            List.count j (s.actives.take (expiredLen now s.records s.actives)) +
            List.count j (s.actives.drop (expiredLen now s.records s.actives)) := by
          rw [← List.count_append, List.take_append_drop]
        have h2 := hcnt j
        unfold aliveOf at h2 ⊢
        dsimp only
        rw [l1, l3 j]
        by_cases hmem : j ∈ s.actives.take (expiredLen now s.records s.actives)
        · rw [if_pos hmem]
          have h1 : 0 < List.count j (s.actives.take (expiredLen now s.records s.actives)) :=
            List.count_pos_iff.mpr hmem
          have h3 : List.count j s.actives ≤ 2 := by
            by_cases hb : (recOf s.records j).alive <;> simp [hb] at h2 <;> omega
          show List.count j (s.actives.drop (expiredLen now s.records s.actives)) ≤ 1
          omega
        · rw [if_neg hmem]
          exact le_trans (by omega) h2
      · intro l hl
        exact hrq l hl

theorem inv_ping (now : Nat) (s : Agent) (h : AgentInv s) : AgentInv (agent_ping now s) := by
  obtain ⟨hwf, hsv, hcnt, hrq⟩ := h
  obtain ⟨hlen, halive⟩ := ping_fold now s.servers (s.records, [])
  refine ⟨?_, ?_, ?_, ?_⟩
  · intro j hj
    exact hlen ▸ hwf j hj
  · intro p hp
    exact hlen ▸ hsv p hp
  · intro j
    have h2 := hcnt j
    unfold aliveOf at h2 ⊢
    dsimp only [agent_ping]
    rw [halive j]
    exact h2
  · intro l hl
    exact hrq l hl

theorem inv_execEvent {e : Event} {s s' : Agent} (hstep : execEvent e s = some s')
    (h : AgentInv s) : AgentInv s' := by
  cases e with
  | control now cmd => exact inv_control now cmd s s' hstep h
  | router now ep seq frames => exact inv_router now ep seq frames s s' hstep h
  | dispatch now =>
    simp only [execEvent, Option.some.injEq] at hstep
    exact hstep ▸ inv_dispatch now s h
  | ping now =>
    simp only [execEvent, Option.some.injEq] at hstep
    exact hstep ▸ inv_ping now s h

theorem inv_agent_new : AgentInv agent_new := by
  refine ⟨?_, ?_, ?_, ?_⟩
  · intro id hid
    simp [agent_new] at hid
  · intro p hp
    simp [agent_new] at hp
  · intro id
    simp [agent_new, aliveOf, recOf]
  · intro l hl
    simp [agent_new] at hl

theorem inv_execTrace : ∀ (tr : List Event) (s0 s : Agent),
    AgentInv s0 → execTrace tr s0 = some s → AgentInv s := by
  intro tr
  induction tr with
  | nil =>
    intro s0 s h0 hst
    simp only [execTrace, Option.some.injEq] at hst
    exact hst ▸ h0
  | cons e tr ih =>
    intro s0 s h0 hst
    simp only [execTrace] at hst
    cases hev : execEvent e s0 with
    | none => rw [hev] at hst; simp at hst
    | some s1 =>
      rw [hev] at hst
      exact ih s1 s (inv_execEvent hev h0) hst

/-! Lemmas turning the tickless fold into a minimum. -/

theorem ite_gt_min (t p : Nat) : (if t > p then p else t) = min t p := by
  rcases le_or_lt t p with h | h
  · rw [if_neg (by omega), min_eq_left h]
  · rw [if_pos h, min_eq_right (le_of_lt h)]

theorem server_tickless_eq (p t : Nat) : server_tickless p t = min t p := by
  unfold server_tickless
  exact ite_gt_min t p

theorem foldr_min_min (L : List Nat) : ∀ a b : Nat, L.foldr min (min a b) = min b (L.foldr min a) := by
  induction L with
  | nil => intro a b; exact min_comm a b
  | cons c L ih =>
    intro a b
    simp only [List.foldr_cons]
    rw [ih]
    exact min_left_comm c b (L.foldr min a)

theorem foldl_min_eq_foldr {α : Type} (f : α → Nat) :
    ∀ (l : List α) (a : Nat),
      l.foldl (fun t x => min t (f x)) a = (l.map f).foldr min a := by
  intro l
  induction l with
  | nil => intro a; rfl
  | cons x l ih =>
    intro a
    simp only [List.foldl_cons, List.map_cons, List.foldr_cons]
    rw [ih]
    exact foldr_min_min (l.map f) a (f x)

/-! Claim theorems. -/

/-- C1 (counterexample): the at-most-once queue invariant fails on the code.
After CONNECT alone the queue holds record 0 once; handling a reply from
that server (not yet marked alive) appends it again, so one record sits in
the Active-Server Queue twice. -/
theorem active_queue_duplicate_counterexample :
    (execTrace [evConnectA] agent_new).map Agent.actives = some [0] ∧
    (execTrace [evConnectA, evReplyStale] agent_new).map Agent.actives = some [0, 0] :=
  ⟨rfl, rfl⟩

/-- C1 (amended): in every reachable agent state a record occurs in the
Active-Server Queue at most twice, and at most once while its alive flag is
off; CONNECT appends the new not-alive record immediately, so the first
reply appends it a second time. -/
theorem active_queue_multiplicity_invariant (tr : List Event) (s : Agent)
    (h : execTrace tr agent_new = some s) (id : Nat) :
    List.count id s.actives ≤ (if aliveOf s id then 2 else 1) :=
  (inv_execTrace tr agent_new s inv_agent_new h).2.2.1 id

/-- C1 (witness): the multiplicity bound evaluated on the duplicate state. -/
theorem active_queue_multiplicity_invariant_witness :
    List.count 0 sDup.actives ≤ (if aliveOf sDup 0 then 2 else 1) :=
  active_queue_multiplicity_invariant [evConnectA, evReplyStale] sDup rfl 0

/-- C2 (counterexample): CONNECT puts the brand-new record (alive still
false, no reply received) straight into the Active-Server Queue, contrary
to the claim that it stays out until the first reply. -/
theorem connect_queues_record_counterexample :
    (agent_connect 0 "tcp://A" agent_new).actives = [0] ∧
    aliveOf (agent_connect 0 "tcp://A" agent_new) 0 = false :=
  ⟨rfl, rfl⟩

/-- C2 (amended): CONNECT creates the record with alive = false,
next-ping = now + PING_INTERVAL and expiry = now + SERVER_TTL, registers a
fresh endpoint in the hash (a duplicate endpoint leaves the hash alone),
and appends the record to the Active-Server Queue immediately. -/
theorem connect_creates_record (now : Nat) (ep : String) (s : Agent) :
    recOf (agent_connect now ep s).records s.records.length = server_new now ep ∧
    (server_new now ep).alive = false ∧
    (server_new now ep).ping_at = now + PING_INTERVAL ∧
    (server_new now ep).expires = now + SERVER_TTL ∧
    (agent_connect now ep s).actives = s.actives ++ [s.records.length] ∧
    (hashLookup s.servers ep = none →
      (agent_connect now ep s).servers = s.servers ++ [(ep, s.records.length)]) ∧
    (∀ j, hashLookup s.servers ep = some j →
      (agent_connect now ep s).servers = s.servers) := by
  refine ⟨?_, rfl, rfl, rfl, rfl, ?_, ?_⟩
  · dsimp only [agent_connect]
    rw [recOf_append, if_pos rfl]
  · intro h
    dsimp only [agent_connect]
    unfold hashInsert
    rw [h]
  · intro j h
    dsimp only [agent_connect]
    unfold hashInsert
    rw [h]

/-- C2 (witness): registering tcp://A on the fresh agent. -/
theorem connect_creates_record_witness :
    (agent_connect 0 "tcp://A" agent_new).servers =
      agent_new.servers ++ [("tcp://A", agent_new.records.length)] :=
  (connect_creates_record 0 "tcp://A" agent_new).2.2.2.2.2.1 rfl

/-- C3 (counterexample): a reply whose identity has no registry entry does
not get logged and dropped; it fails the C assert, aborting the agent
(modelled by the handler returning none). -/
theorem unknown_identity_crash_counterexample :
    agent_router_message 0 "tcp://X" 0 [] agent_new = none := rfl

/-- C3 (amended): every reply from an identity absent from the server hash
makes agent_router_message hit the failed assertion (none), terminating the
process instead of dropping the reply. -/
theorem unknown_identity_asserts (s : Agent) (now : Nat) (ep : String) (seq : Nat)
    (frames : List String) (h : hashLookup s.servers ep = none) :
    agent_router_message now ep seq frames s = none := by
  unfold agent_router_message
  rw [h]

/-- C3 (witness): a reply from unconnected tcp://B after connecting tcp://A. -/
theorem unknown_identity_asserts_witness :
    agent_router_message 1 "tcp://B" 0 [] sConnA = none :=
  unknown_identity_asserts sConnA 1 "tcp://B" 0 [] rfl

/-- C4: while a request is pending and its deadline not passed, dispatch
pops every expired front record (marking each not alive) until the front is
current or the queue is empty; an unexpired front gets the duplicated
request with its identity pushed on front, and stays at the front of the
queue (no rotation, no removal); an emptied queue sends nothing; in both
cases the request stays pending and nothing goes to the pipe. -/
theorem dispatch_sticky_first_alive (s : Agent) (now : Nat) (req : List String)
    (hr : s.request = some req) (hexp : ¬ now ≥ s.expires) :
    (agent_dispatch now s).request = some req ∧
    (agent_dispatch now s).pipeOut = s.pipeOut ∧
    (agent_dispatch now s).actives =
      s.actives.drop (expiredLen now s.records s.actives) ∧
    (∀ j ∈ s.actives.take (expiredLen now s.records s.actives),
       now ≥ (recOf s.records j).expires ∧ aliveOf (agent_dispatch now s) j = false) ∧
    (∀ j, (agent_dispatch now s).actives.head? = some j →
       now < (recOf s.records j).expires ∧
       (agent_dispatch now s).routerOut =
         s.routerOut ++ [(recOf s.records j).endpoint :: req]) ∧
    ((agent_dispatch now s).actives = [] →
       (agent_dispatch now s).routerOut = s.routerOut) := by
  obtain ⟨l1, l2, l3, l4, l5, l6, l7, l8⟩ := dispatch_loop_spec now req s.actives s.records
  rw [dispatch_eq_run hr hexp]
  refine ⟨hr, rfl, ?_, ?_, ?_, ?_⟩
  · dsimp only
    exact l1
  · intro j hj
    refine ⟨l6 j hj, ?_⟩
    unfold aliveOf
    dsimp only
    rw [l3 j, if_pos hj]
  · intro j hj
    dsimp only at hj
    rw [l1] at hj
    refine ⟨l7 j hj, ?_⟩
    dsimp only
    rw [l8, hj]
    rfl
  · intro hempty
    dsimp only at hempty ⊢
    rw [l1] at hempty
    rw [l8, hempty]
    simp

/-- C4 (witness): with tcp://A expired and tcp://B current, dispatch at
7500 sends the pending request to tcp://B. -/
theorem dispatch_sticky_first_alive_witness :
    (agent_dispatch 7500 sTwoServers).routerOut =
      sTwoServers.routerOut ++ [(recOf sTwoServers.records 1).endpoint :: ["1", "job"]] :=
  ((dispatch_sticky_first_alive sTwoServers 7500 ["1", "job"] rfl
    (by decide)).2.2.2.2.1 1 rfl).2

/-- C5: a reply from a registered server whose echoed sequence differs from
the pending request's sequence frame is dropped silently in any reachable
state: the pending request is untouched and nothing is sent on the pipe. -/
theorem stale_reply_discarded (tr : List Event) (s : Agent) (now : Nat)
    (ep : String) (sq : String) (payload : List String) (seq : Nat)
    (frames : List String) (s' : Agent)
    (hreach : execTrace tr agent_new = some s)
    (hreq : s.request = some (sq :: payload))
    (hseq : toString seq ≠ sq)
    (hstep : agent_router_message now ep seq frames s = some s') :
    s'.request = s.request ∧ s'.pipeOut = s.pipeOut := by
  have hinv := inv_execTrace tr agent_new s inv_agent_new hreach
  obtain ⟨tl, htl⟩ := hinv.2.2.2 (sq :: payload) hreq
  injection htl with h1 h2
  have hne : ¬ seq = s.sequence := fun hcontra => hseq (by rw [hcontra, ← h1])
  cases hlk : hashLookup s.servers ep with
  | none =>
    unfold agent_router_message at hstep
    rw [hlk] at hstep
    simp at hstep
  | some id =>
    rw [router_eq_stale hlk hne] at hstep
    injection hstep with h3
    subst h3
    exact ⟨rfl, rfl⟩

/-- C5 (witness): a reply echoing 7 while request 1 is pending is dropped. -/
theorem stale_reply_discarded_witness :
    sPendingStale.request = sPending.request ∧
    sPendingStale.pipeOut = sPending.pipeOut :=
  stale_reply_discarded [evConnectA, evRequestHello] sPending 25 "tcp://A" "1"
    ["hello"] 7 [] sPendingStale rfl rfl (by decide) rfl

/-- C6: a pending request whose deadline has passed makes dispatch send
FAILED to the pipe and clear the request; and over every event the agent
handles, any message it appends to the pipe is either an OK-prefixed reply
or that deadline-expiry FAILED, so FAILED on expiry is the only
caller-visible failure. -/
theorem deadline_failed_only_failure :
    (∀ (s : Agent) (now : Nat) (req : List String),
       s.request = some req → now ≥ s.expires →
       agent_dispatch now s =
         { s with pipeOut := s.pipeOut ++ [["FAILED"]], request := none }) ∧
    (∀ (e : Event) (s s' : Agent), execEvent e s = some s' →
       ∃ fresh, s'.pipeOut = s.pipeOut ++ fresh ∧
         ∀ m ∈ fresh, (∃ fr, m = "OK" :: fr) ∨
           (m = ["FAILED"] ∧ ∃ now, e = Event.dispatch now ∧
              (∃ req, s.request = some req) ∧ now ≥ s.expires)) := by
  constructor
  · intro s now req hr hexp
    exact dispatch_eq_failed hr hexp
  · intro e s s' hstep
    cases e with
    | control now cmd =>
      cases cmd with
      | connect ep =>
        simp only [execEvent, agent_control_message, Option.some.injEq] at hstep
        subst hstep
        exact ⟨[], by simp [agent_connect], fun m hm => by simp at hm⟩
      | request payload =>
        unfold execEvent agent_control_message agent_request at hstep
        cases hr : s.request with
        | some l => rw [hr] at hstep; simp at hstep
        | none =>
          rw [hr] at hstep
          simp only [Option.some.injEq] at hstep
          subst hstep
          exact ⟨[], by simp, fun m hm => by simp at hm⟩
    | router now ep seq frames =>
      have hre : execEvent (Event.router now ep seq frames) s =
          agent_router_message now ep seq frames s := rfl
      cases hlk : hashLookup s.servers ep with
      | none =>
        rw [hre] at hstep
        unfold agent_router_message at hstep
        rw [hlk] at hstep
        simp at hstep
      | some id =>
        by_cases hseq : seq = s.sequence
        · rw [hre, router_eq_fresh hlk hseq] at hstep
          injection hstep with h2
          subst h2
          refine ⟨[("OK" :: frames)], rfl, ?_⟩
          intro m hm
          rw [List.mem_singleton] at hm
          exact Or.inl ⟨frames, hm⟩
        · rw [hre, router_eq_stale hlk hseq] at hstep
          injection hstep with h2
          subst h2
          exact ⟨[], by simp, fun m hm => by simp at hm⟩
    | dispatch now =>
      simp only [execEvent, Option.some.injEq] at hstep
      subst hstep
      cases hr : s.request with
      | none =>
        rw [dispatch_eq_idle hr]
        exact ⟨[], by simp, fun m hm => by simp at hm⟩
      | some req =>
        by_cases hexp : now ≥ s.expires
        · rw [dispatch_eq_failed hr hexp]
          refine ⟨[["FAILED"]], rfl, ?_⟩
          intro m hm
          rw [List.mem_singleton] at hm
          exact Or.inr ⟨hm, now, rfl, ⟨req, rfl⟩, hexp⟩
        · rw [dispatch_eq_run hr hexp]
          exact ⟨[], by simp, fun m hm => by simp at hm⟩
    | ping now =>
      simp only [execEvent, Option.some.injEq] at hstep
      subst hstep
      exact ⟨[], by simp [agent_ping], fun m hm => by simp at hm⟩

/-- C6 (witness): dispatch at 4000 on the request armed for 3010 fails it. -/
theorem deadline_failed_only_failure_witness :
    agent_dispatch 4000 sPending =
      { sPending with pipeOut := sPending.pipeOut ++ [["FAILED"]], request := none } :=
  deadline_failed_only_failure.1 sPending 4000 ["1", "hello"] rfl (by decide)

/-- C7: a REQUEST while none is pending increments the uint sequence
counter, pushes its decimal text onto the payload as the sequence frame and
stores the frames as the pending request with deadline now + GLOBAL_TIMEOUT
(3000 ms); a REQUEST while one is pending fails the assert (contract
violation, process-ending). -/
theorem request_command_contract (s : Agent) (now : Nat) (payload : List String) :
    (s.request = none →
       agent_control_message now (Command.request payload) s =
         some { s with
           sequence := (s.sequence + 1) % 4294967296,
           request := some (toString ((s.sequence + 1) % 4294967296) :: payload),
           expires := now + GLOBAL_TIMEOUT }) ∧
    (∀ req, s.request = some req →
       agent_control_message now (Command.request payload) s = none) ∧
    GLOBAL_TIMEOUT = 3000 := by
  refine ⟨?_, ?_, rfl⟩
  · intro hr
    show agent_request now payload s = _
    unfold agent_request
    rw [hr]
  · intro req hr
    show agent_request now payload s = none
    unfold agent_request
    rw [hr]

/-- C7 (witness): the first REQUEST on a fresh agent stores sequence 1. -/
theorem request_command_contract_witness :
    agent_control_message 10 (Command.request ["hello"]) agent_new =
      some { agent_new with
        sequence := (agent_new.sequence + 1) % 4294967296,
        request := some (toString ((agent_new.sequence + 1) % 4294967296) :: ["hello"]),
        expires := 10 + GLOBAL_TIMEOUT } :=
  (request_command_contract agent_new 10 ["hello"]).1 rfl

/-- C8: a reply from a registered server always restarts that record's
ping and expiry timers from now, and if the record was not alive it is
appended to the back of the Active-Server Queue, while an already-alive
record leaves the queue unchanged; this holds for fresh and stale echoed
sequence numbers alike. -/
theorem reply_refreshes_server (tr : List Event) (s : Agent) (now : Nat)
    (ep : String) (seq : Nat) (frames : List String) (id : Nat)
    (hreach : execTrace tr agent_new = some s)
    (hid : hashLookup s.servers ep = some id) :
    (agent_router_message now ep seq frames s).isSome = true ∧
    (∀ s', agent_router_message now ep seq frames s = some s' →
       recOf s'.records id =
         { recOf s.records id with
           alive := true, ping_at := now + PING_INTERVAL, expires := now + SERVER_TTL } ∧
       (aliveOf s id = false → s'.actives = s.actives ++ [id]) ∧
       (aliveOf s id = true → s'.actives = s.actives)) := by
  have hinv := inv_execTrace tr agent_new s inv_agent_new hreach
  obtain ⟨p, hp, hpid⟩ := hashLookup_mem hid
  have hlt : id < s.records.length := hpid ▸ hinv.2.1 p hp
  by_cases hseq : seq = s.sequence
  · rw [router_eq_fresh hid hseq]
    refine ⟨rfl, ?_⟩
    intro s' hs'
    injection hs' with h2
    subst h2
    refine ⟨?_, ?_, ?_⟩
    · dsimp only
      rw [recOf_set, if_pos (show id = id ∧ id < s.records.length from ⟨rfl, hlt⟩)]
    · intro hal
      unfold aliveOf at hal
      dsimp only
      simp [hal]
    · intro hal
      unfold aliveOf at hal
      dsimp only
      simp [hal]
  · rw [router_eq_stale hid hseq]
    refine ⟨rfl, ?_⟩
    intro s' hs'
    injection hs' with h2
    subst h2
    refine ⟨?_, ?_, ?_⟩
    · dsimp only
      rw [recOf_set, if_pos (show id = id ∧ id < s.records.length from ⟨rfl, hlt⟩)]
    · intro hal
      unfold aliveOf at hal
      dsimp only
      simp [hal]
    · intro hal
      unfold aliveOf at hal
      dsimp only
      simp [hal]

/-- C8 (witness): the stale reply at 5 msec revives record 0 of sConnA. -/
theorem reply_refreshes_server_witness :
    recOf sDup.records 0 =
      { recOf sConnA.records 0 with
        alive := true, ping_at := 5 + PING_INTERVAL, expires := 5 + SERVER_TTL } :=
  ((reply_refreshes_server [evConnectA] sConnA 5 "tcp://A" 7 ["x"] 0 rfl rfl).2 sDup rfl).1

/-- C9: the tickless wake-up time equals the minimum of one hour from now,
the pending request's deadline (only when a request is pending) and every
registered server's next-ping time; the poll timeout is that wake-up time
minus now. -/
theorem tickless_is_min (now : Nat) (s : Agent) :
    agent_tickless now s =
      (s.servers.map (fun p => (recOf s.records p.2).ping_at)).foldr min
        (s.request.elim (now + 3600000) (fun _ => min (now + 3600000) s.expires)) ∧
    agent_wait_timeout now s = agent_tickless now s - now := by
  constructor
  · have hstep : (fun (t : Nat) (p : String × Nat) =>
        server_tickless (recOf s.records p.2).ping_at t) =
        (fun (t : Nat) (p : String × Nat) => min t ((recOf s.records p.2).ping_at)) := by
      funext t p
      exact server_tickless_eq _ _
    dsimp only [agent_tickless]
    rw [hstep, foldl_min_eq_foldr (fun p => (recOf s.records p.2).ping_at) s.servers]
    congr 1
    cases hreq : s.request with
    | none => norm_num
    | some l =>
      show (if now + 1000 * 3600 > s.expires then s.expires else now + 1000 * 3600) =
        min (now + 3600000) s.expires
      rw [show now + 1000 * 3600 = now + 3600000 from by norm_num]
      exact ite_gt_min _ _
  · rfl

/-- C10: a reply from a registered server echoing the counter value while
no request is pending (here: a duplicate of the already-delivered reply 1)
is still pushed to the pipe as OK plus its frames, because the freshness
check compares against the global counter, not against a pending request. -/
theorem stale_matching_reply_forwarded :
    (execTrace [evConnectA, evRequestHello, evReplyFresh] agent_new).map Agent.request =
      some none ∧
    (execTrace [evConnectA, evRequestHello, evReplyFresh, evReplyDup] agent_new).map
      Agent.pipeOut = some [["OK", "world"], ["OK", "again"]] :=
  ⟨rfl, rfl⟩
